import Mathlib

/-!
Verification of the VRF crypto package (selector `vrf.go`, golden-file test
`vrf_golden_test.go`, fuzz harness `vrf_fuzz_test.go`) of go-algorand.

Byte strings are `List Nat` (each entry one byte).  The elliptic-curve engine
itself (the pure-Go `VrfKeygenFromSeedGo` / `proveBytesGo` / `verifyBytesGo`
and the libsodium C bodies behind the `cgovrf` declarations) is not part of
the sources; it is modelled from the specification over a small group with
the same cofactor structure as Ed25519: `ZMod 88` (= 8 * 11, cofactor 8 and
a prime-order subgroup of order 11 generated by `G = 8`).
-/

/-- Little-endian byte decoding: `bytesToNat [b0, b1, ...] = b0 + 256*b1 + ...`. -/
def bytesToNat : List Nat → Nat
  | [] => 0
  | b :: bs => b + 256 * bytesToNat bs

/-- Little-endian fixed-width byte encoding of a natural number. -/
def natToBytes : Nat → Nat → List Nat
  | 0, _ => []
  | w + 1, n => n % 256 :: natToBytes w (n / 256)

/-- The model curve group: order 88 = 8 * 11, mirroring Ed25519's
cofactor-8 group with prime subgroup order 11.  The identity is `0`. -/
abbrev Point := ZMod 88

/-- Scalar multiplication of a model curve point by a natural-number scalar. -/
def scMul (a : Nat) (P : Point) : Point := (a : Point) * P

/-- Generator of the prime-order subgroup (the multiples of 8). -/
def Gbase : Point := 8

/-- Modelled from the spec: compression of a curve point into its canonical
32-byte encoding (value little-endian, high bytes zero). -/
def compressPoint (P : Point) : List Nat := natToBytes 32 P.val

/-- Modelled from the spec: point decompression.  Fails (`none`) when the
byte string is not a canonical 32-byte encoding of a group element. -/
def decompressPoint (bs : List Nat) : Option Point :=
  if bs.length = 32 ∧ bytesToNat bs < 88 then some ((bytesToNat bs : Nat) : Point)
  else none

/-- A point carries disallowed torsion when it lies outside the prime-order
subgroup, i.e. when multiplying by the subgroup order does not kill it. -/
def hasTorsion (P : Point) : Bool := decide (scMul 11 P ≠ 0)

/-- Cofactor clearing: multiplication by the cofactor 8. -/
def clearCofactor (P : Point) : Point := scMul 8 P

/-- Modelled from the spec: the hash folding a message byte string to a
natural number (stand-in for the SHA-512-based hashes; the spec fixes only
determinism and shape). -/
def msgFold (msg : List Nat) : Nat := bytesToNat msg + msg.length

/-- Modelled from the spec: hash-to-curve.  Deterministically maps a message
to a non-identity point of the prime-order subgroup. -/
def hashToCurve (msg : List Nat) : Point := scMul (msgFold msg % 10 + 1) Gbase

/-- Modelled from the spec: standard Edwards secret-scalar clamping, which
expands a 32-byte seed into a usable (nonzero in the prime-order subgroup)
secret scalar. -/
def clampScalar (seed : List Nat) : Nat := bytesToNat seed % 10 + 1

/-- Modelled from the spec: the deterministic per-message nonce derived from
the secret scalar and the hashed-to-curve message point. -/
def nonceScalar (x : Nat) (H : Point) : Nat := (x * 17 + H.val * 19 + 3) % 11

/-- Modelled from the spec: the truncated Fiat-Shamir challenge hash over
the public key point, message point, Gamma and the two commitments. -/
def challengeHash (Y H Gamma U V : Point) : Nat :=
  (Y.val * 3 + H.val * 5 + Gamma.val * 7 + U.val * 11 + V.val * 13) % 11

/-- Modelled from the spec: the domain-separated output hash producing the
64-byte VRF output from the cofactor-cleared Gamma point. -/
def outputHash (P : Point) : List Nat := natToBytes 64 (P.val * 23 + 7)

/-- The all-zero 64-byte output returned on verification failure. -/
def zeros64 : List Nat := List.replicate 64 0

/-- The all-zero 80-byte proof buffer returned when proving fails. -/
def zeroProof : List Nat := List.replicate 80 0

/-- Modelled from the spec: deterministic VRF keygen.  Clamps the seed into
a scalar, computes and compresses the public point, and returns
`(PublicKey, PrivateKey = seed ++ PublicKey)`.  Stands in for the absent
`VrfKeygenFromSeedGo` and libsodium `crypto_vrf_keypair_from_seed`. -/
def vrfKeygenFromSeedSpec (seed : List Nat) : List Nat × List Nat :=
  let x := clampScalar seed
  let pub := compressPoint (scMul x Gbase)
  (pub, seed ++ pub)

/-- Modelled from the spec: random keygen draws a 32-byte seed from the
secure random source (here an explicit entropy argument) and delegates to
seeded keygen.  Stands in for the absent libsodium `crypto_vrf_keypair`. -/
def vrfKeygenSpec (entropy : List Nat) : List Nat × List Nat :=
  vrfKeygenFromSeedSpec entropy

/-- Modelled from the spec: extraction of the public key stored in the
trailing 32 bytes of a private key, with no curve computation.  Stands in
for the absent libsodium `crypto_vrf_sk_to_pk`. -/
def skToPkSpec (sk : List Nat) : List Nat := sk.drop 32

/-- Modelled from the spec: proof construction.  Fails (`none`) when the
private key is malformed (its stored public half does not match the point
derived from its scalar half).  Otherwise packs
`Gamma (32 bytes) ++ challenge (16 bytes) ++ response (32 bytes)`.
Stands in for the absent `proveBytesGo` and libsodium `crypto_vrf_prove`. -/
def provePriv (sk : List Nat) (msg : List Nat) : Option (List Nat) :=
  let x := clampScalar (sk.take 32)
  let Y := scMul x Gbase
  if sk.drop 32 = compressPoint Y then
    let H := hashToCurve msg
    let Gamma := scMul x H
    let k := nonceScalar x H
    let c := challengeHash Y H Gamma (scMul k Gbase) (scMul k H)
    let s := (k + c * x) % 11
    some (compressPoint Gamma ++ natToBytes 16 c ++ natToBytes 32 s)
  else none

/-- Proof construction with the Go-style `(proof, ok)` result shape:
the zeroed proof buffer is returned when proving fails. -/
def proveBytesSpec (sk : List Nat) (msg : List Nat) : List Nat × Bool :=
  match provePriv sk msg with
  | some p => (p, true)
  | none => (zeroProof, false)

/-- Modelled from the spec: proof-to-output reduction without verification.
Decompresses Gamma; fails on bad encoding or disallowed torsion; otherwise
hashes the cofactor-cleared point.  Stands in for the absent libsodium
`crypto_vrf_proof_to_hash`. -/
def proofToHashSpec (proof : List Nat) : List Nat × Bool :=
  match decompressPoint (proof.take 32) with
  | none => (zeros64, false)
  | some Gamma =>
    if hasTorsion Gamma then (zeros64, false)
    else (outputHash (clearCofactor Gamma), true)

/-- Modelled from the spec: proof verification.  Rejects with
`(false, zeros64)` when the public key or Gamma fails to decompress, either
is the identity, or Gamma carries disallowed torsion; otherwise reconstructs
the commitments and compares the full 16-byte challenge field.  Stands in
for the absent `verifyBytesGo` and libsodium `crypto_vrf_verify`. -/
def verifyBytesSpec (pk proof msg : List Nat) : Bool × List Nat :=
  match decompressPoint pk with
  | none => (false, zeros64)
  | some Y =>
    if Y = 0 then (false, zeros64)
    else
      match decompressPoint (proof.take 32) with
      | none => (false, zeros64)
      | some Gamma =>
        if Gamma = 0 then (false, zeros64)
        else if hasTorsion Gamma then (false, zeros64)
        else
          let c := bytesToNat ((proof.drop 32).take 16)
          let s := bytesToNat (proof.drop 48)
          let H := hashToCurve msg
          let U := scMul s Gbase - scMul c Y
          let V := scMul s H - scMul c Gamma
          let cc := challengeHash Y H Gamma U V
          if (proof.drop 32).take 16 = natToBytes 16 cc then
            (true, outputHash (clearCofactor Gamma))
          else (false, zeros64)

/-- A VRF engine backend: the function table the selector routes between.
The C backend (`cgovrf` package) supplies all six operations; the Go
backend supplies seeded keygen, prove and verify. -/
structure VrfEngine where
  keygenFromSeed : List Nat → List Nat × List Nat
  keygen : List Nat → List Nat × List Nat
  skToPk : List Nat → List Nat
  proveBytes : List Nat → List Nat → List Nat × Bool
  proofToHash : List Nat → List Nat × Bool
  verifyBytes : List Nat → List Nat → List Nat → Bool × List Nat

/-- The C/libsodium backend, instantiated with the spec-modelled engine
(the C bodies are behind the cgo boundary and absent from the sources). -/
def cImpl : VrfEngine where
  keygenFromSeed := vrfKeygenFromSeedSpec
  keygen := vrfKeygenSpec
  skToPk := skToPkSpec
  proveBytes := proveBytesSpec
  proofToHash := proofToHashSpec
  verifyBytes := verifyBytesSpec

/-- The pure-Go backend, instantiated with the same spec-modelled engine
(`vrf_go.go` is absent from the sources; the spec mandates behaviour
byte-identical to the C backend). -/
def goImpl : VrfEngine where
  keygenFromSeed := vrfKeygenFromSeedSpec
  keygen := vrfKeygenSpec
  skToPk := skToPkSpec
  proveBytes := proveBytesSpec
  proofToHash := proofToHashSpec
  verifyBytes := verifyBytesSpec

/-- `SetUseGoImplementation` overwrites the process-wide backend flag. -/
def SetUseGoImplementation (_old : Bool) (useGo : Bool) : Bool := useGo

/-- `VrfKeygenFromSeed`: routed to the Go backend when the flag is set,
else to the C backend. -/
def VrfKeygenFromSeed (cE gE : VrfEngine) (useGo : Bool) (seed : List Nat) :
    List Nat × List Nat :=
  if useGo then gE.keygenFromSeed seed else cE.keygenFromSeed seed

/-- `VrfKeygen`: with the flag set, draws a random seed (the explicit
`entropy` argument models `crypto/rand`) and calls the Go seeded keygen;
otherwise calls the C backend's keygen (whose own randomness is likewise
the entropy argument). -/
def VrfKeygen (cE gE : VrfEngine) (useGo : Bool) (entropy : List Nat) :
    List Nat × List Nat :=
  if useGo then gE.keygenFromSeed entropy else cE.keygen entropy

/-- `VrfPrivkey.Pubkey`: with the flag set, extracts the trailing 32 bytes
of the private key inline; otherwise calls the C backend's `Pubkey`. -/
def Pubkey (cE _gE : VrfEngine) (useGo : Bool) (sk : List Nat) : List Nat :=
  if useGo then sk.drop 32 else cE.skToPk sk

/-- `VrfPrivkey.proveBytes`: routed by the flag. -/
def proveBytes (cE gE : VrfEngine) (useGo : Bool) (sk msg : List Nat) :
    List Nat × Bool :=
  if useGo then gE.proveBytes sk msg else cE.proveBytes sk msg

/-- `VrfProof.Hash`: calls the C backend's proof-to-hash unconditionally —
the source has no branch on the backend flag. -/
def VrfProofHash (cE _gE : VrfEngine) (_useGo : Bool) (proof : List Nat) :
    List Nat × Bool :=
  cE.proofToHash proof

/-- `VrfPubkey.verifyBytes`: routed by the flag. -/
def verifyBytes (cE gE : VrfEngine) (useGo : Bool) (pk proof msg : List Nat) :
    Bool × List Nat :=
  if useGo then gE.verifyBytes pk proof msg else cE.verifyBytes pk proof msg

/-- Modelled from the spec: a `Hashable` application message, encoded by the
external collaborator as a type-tag prefixed canonical byte string.  The Go
`Hashable` / `HashRep` definitions live outside these sources. -/
structure HashableMsg where
  hashID : List Nat
  hashData : List Nat

/-- Modelled from the spec: canonical domain-separated encoding — the type
tag followed by the serialized payload. -/
def HashRep (h : HashableMsg) : List Nat := h.hashID ++ h.hashData

/-- The post-verify hook type (`validateGoVerify`): observes the public key,
proof, message, verification flag and output, producing observations only. -/
def VerifyHookT : Type :=
  List Nat → List Nat → HashableMsg → Bool → List Nat → List (List Nat)

/-- `VrfPubkey.Verify`: encodes the message, verifies the proof bytes, then
invokes the optional post-verify hook on the already-computed result.  The
returned pair is the verification result together with the hook's
observations. -/
def Verify (cE gE : VrfEngine) (useGo : Bool) (hook : Option VerifyHookT)
    (pk p : List Nat) (message : HashableMsg) :
    (Bool × List Nat) × List (List Nat) :=
  let msgBytes := HashRep message
  let r := verifyBytes cE gE useGo pk p msgBytes
  match hook with
  | none => (r, [])
  | some f => (r, f pk p message r.1 r.2)

/-- `VrfPrivkey.Prove`: encodes the `Hashable` message and proves over the
resulting bytes. -/
def Prove (cE gE : VrfEngine) (useGo : Bool) (sk : List Nat)
    (message : HashableMsg) : List Nat × Bool :=
  proveBytes cE gE useGo sk (HashRep message)

/-- One stored golden test vector (hex decoding elided: fields hold the raw
bytes the hex strings encode). -/
structure GoldenVector where
  publicKey : List Nat
  message : List Nat
  goProof : List Nat
  cProof : List Nat
  goVerifyOut : List Nat
  cVerifyOut : List Nat
deriving DecidableEq

/-- Modelled from the spec: one byte of the deterministic pseudo-random
stream of `math/rand` seeded with a fixed constant (the `rand.NewSource`
algorithm lives in the Go standard library, outside these sources; the
claims use only its determinism). -/
def prngByte (seed i : Nat) : Nat := (seed * 75 + i * 31 + 7) % 256

/-- The i-th 32-byte message drawn from the seeded PRNG stream. -/
def goldenMessage (seed i : Nat) : List Nat :=
  (List.range 32).map (fun j => prngByte seed (i * 32 + j))

/-- `generateAndSaveGoldenFile`, data part: keypairs come from `VrfKeygen()`
— fresh entropy from the system CSPRNG, one 32-byte block per vector — while
messages come from the `math/rand` source seeded with the fixed constant.
Each vector stores the public key, message, the C and Go proofs and the C
and Go verify outputs. -/
def generateGoldenVectors (prngSeed : Nat) (entropy : List (List Nat))
    (n : Nat) : List GoldenVector :=
  (List.range n).map fun i =>
    let pr := vrfKeygenSpec (entropy.getD i [])
    let msg := goldenMessage prngSeed i
    let cP := (cImpl.proveBytes pr.2 msg).1
    let gP := (goImpl.proveBytes pr.2 msg).1
    let cO := (cImpl.verifyBytes pr.1 cP msg).2
    let gO := (goImpl.verifyBytes pr.1 gP msg).2
    ⟨pr.1, msg, gP, cP, gO, cO⟩

/-- Replay of one stored vector: the Go proof must re-verify under the Go
backend and reproduce the stored Go output, and the C proof must re-verify
through the selector (`pk.verifyBytes`) and reproduce the stored C output. -/
def replayVector (useGo : Bool) (v : GoldenVector) : Bool :=
  let gr := goImpl.verifyBytes v.publicKey v.goProof v.message
  let cr := verifyBytes cImpl goImpl useGo v.publicKey v.cProof v.message
  gr.1 && decide (gr.2 = v.goVerifyOut) && cr.1 && decide (cr.2 = v.cVerifyOut)

/-- Outcome of one run of `TestVRFGoldenFiles`: either a fresh fixture was
generated and persisted, or the existing fixture was replayed (with the
per-vector check results). -/
inductive GoldenRunResult where
  | generated (written : List GoldenVector)
  | replayed (checks : List Bool)
deriving DecidableEq

/-- `TestVRFGoldenFiles` control flow: when the update flag is set or no
fixture exists, generate and persist a fresh fixture and return; otherwise
replay every stored vector. -/
def runGoldenFileTest (updateFlag : Bool) (existing : Option (List GoldenVector))
    (useGo : Bool) (prngSeed : Nat) (entropy : List (List Nat)) :
    GoldenRunResult :=
  if updateFlag || existing.isNone then
    .generated (generateGoldenVectors prngSeed entropy 10)
  else
    .replayed ((existing.getD []).map (replayVector useGo))

/-- The early-rejection condition of `verifyBytes`: the public key or Gamma
fails to decompress, either decompressed point is the identity, or Gamma
carries disallowed torsion. -/
def rejectInput (pk proof : List Nat) : Bool :=
  match decompressPoint pk, decompressPoint (proof.take 32) with
  | none, _ => true
  | _, none => true
  | some Y, some Gamma =>
      decide (Y = 0) || decide (Gamma = 0) || hasTorsion Gamma

/-- A concrete C backend whose proof-to-hash answers `([0], false)`: used to
separate the two backends observationally. -/
def cEngineX : VrfEngine where
  keygenFromSeed := fun _ => ([], [])
  keygen := fun _ => ([], [])
  skToPk := fun _ => []
  proveBytes := fun _ _ => ([], false)
  proofToHash := fun _ => ([0], false)
  verifyBytes := fun _ _ _ => (false, [])

/-- A concrete Go backend whose proof-to-hash answers `([1], true)`. -/
def gEngineX : VrfEngine where
  keygenFromSeed := fun _ => ([], [])
  keygen := fun _ => ([], [])
  skToPk := fun _ => []
  proveBytes := fun _ _ => ([], false)
  proofToHash := fun _ => ([1], true)
  verifyBytes := fun _ _ _ => (false, [])

/-- The all-zero 32-byte seed (concrete scenario 1 of the spec). -/
def seedW : List Nat := List.replicate 32 0

/-- The private key generated from the all-zero seed. -/
def skW : List Nat := (vrfKeygenFromSeedSpec seedW).2

/-- A proof for the empty message under `skW`, through the selector with the
C backend active. -/
def proofW : List Nat := (proveBytes cImpl goImpl false skW []).1

/-- Ten 32-byte all-zero entropy blocks for one golden-generation run. -/
def entropyA : List (List Nat) := List.replicate 10 (List.replicate 32 0)

/-- Ten 32-byte entropy blocks, second byte 1, for another run. -/
def entropyB : List (List Nat) := List.replicate 10 (0 :: 1 :: List.replicate 30 0)

theorem natToBytes_length (w n : Nat) : (natToBytes w n).length = w := by
  induction w generalizing n with
  | zero => rfl
  | succ w ih => simp [natToBytes, ih]

theorem bytesToNat_natToBytes (w n : Nat) (h : n < 256 ^ w) :
    bytesToNat (natToBytes w n) = n := by
  induction w generalizing n with
  | zero => simp [natToBytes, bytesToNat]; omega
  | succ w ih =>
    have hlt : n / 256 < 256 ^ w := by
      rw [pow_succ, mul_comm] at h
      exact Nat.div_lt_of_lt_mul h
    simp only [natToBytes, bytesToNat, ih _ hlt]
    omega

theorem scMul_add (a b : Nat) (P : Point) :
    scMul (a + b) P = scMul a P + scMul b P := by
  unfold scMul; push_cast; ring

theorem scMul_mul (a b : Nat) (P : Point) :
    scMul (a * b) P = scMul a (scMul b P) := by
  unfold scMul; push_cast; ring

theorem scMul_zero_point (a : Nat) : scMul a 0 = 0 := by
  unfold scMul; rw [mul_zero]

theorem scMul_mod_eleven (a : Nat) (P : Point) (h : scMul 11 P = 0) :
    scMul (a % 11) P = scMul a P := by
  conv_rhs => rw [← Nat.div_add_mod a 11]
  rw [scMul_add]
  have h2 : scMul (11 * (a / 11)) P = 0 := by
    rw [mul_comm, scMul_mul, h, scMul_zero_point]
  rw [h2, zero_add]

theorem Gbase_torsion : scMul 11 Gbase = 0 := by decide

theorem scMul_torsion_of (a : Nat) (P : Point) (h : scMul 11 P = 0) :
    scMul 11 (scMul a P) = 0 := by
  rw [← scMul_mul, mul_comm, scMul_mul, h, scMul_zero_point]

theorem scMul_Gbase_ne_zero_of_not_dvd (a : Nat) (h : ¬ 11 ∣ a) :
    scMul a Gbase ≠ 0 := by
  intro h0
  have h8 : ((8 * a : Nat) : Point) = 0 := by
    push_cast
    rw [mul_comm]
    exact h0
  obtain ⟨t, ht⟩ := (ZMod.natCast_zmod_eq_zero_iff_dvd _ 88).mp h8
  exact h ⟨t, by omega⟩

theorem scMul_Gbase_ne_zero (a : Nat) (h1 : 1 ≤ a) (h2 : a ≤ 10) :
    scMul a Gbase ≠ 0 := by
  refine scMul_Gbase_ne_zero_of_not_dvd a ?_
  rintro ⟨t, ht⟩
  omega

/-- Recomputing a commitment from the packed response and challenge gives
back the nonce commitment, for any torsion-free base point. -/
theorem commitment_recompute (x k c : Nat) (P : Point) (hP : scMul 11 P = 0) :
    scMul ((k + c * x) % 11) P - scMul c (scMul x P) = scMul k P := by
  rw [scMul_mod_eleven _ _ hP, scMul_add, ← scMul_mul]
  abel

theorem compressPoint_length (P : Point) : (compressPoint P).length = 32 :=
  natToBytes_length 32 P.val

theorem decompress_compress (P : Point) :
    decompressPoint (compressPoint P) = some P := by
  have hval : P.val < 88 := ZMod.val_lt P
  have hlt : P.val < 256 ^ 32 := lt_of_lt_of_le hval (by norm_num)
  unfold decompressPoint compressPoint
  rw [bytesToNat_natToBytes 32 _ hlt, natToBytes_length]
  rw [if_pos ⟨rfl, hval⟩]
  exact congrArg some (ZMod.natCast_rightInverse P)

/-- Core round-trip: a proof produced by the spec-modelled prover verifies
under the spec-modelled verifier against the stored public key, and the
proof-to-output reduction returns the same output the verifier reports. -/
theorem provePriv_roundTrip (sk msg P : List Nat)
    (h : provePriv sk msg = some P) :
    verifyBytesSpec (sk.drop 32) P msg
      = (true, outputHash (clearCofactor
          (scMul (clampScalar (sk.take 32)) (hashToCurve msg)))) ∧
    proofToHashSpec P
      = (outputHash (clearCofactor
          (scMul (clampScalar (sk.take 32)) (hashToCurve msg))), true) := by
  simp only [provePriv] at h
  by_cases hpk : sk.drop 32
      = compressPoint (scMul (clampScalar (sk.take 32)) Gbase)
  case neg => rw [if_neg hpk] at h; exact absurd h (by simp)
  rw [if_pos hpk] at h
  obtain rfl := Option.some.inj h
  set x := clampScalar (sk.take 32) with hxdef
  set H := hashToCurve msg with hHdef
  set Y := scMul x Gbase with hYdef
  set Gamma := scMul x H with hGdef
  set k := nonceScalar x H with hkdef
  set c := challengeHash Y H Gamma (scMul k Gbase) (scMul k H) with hcdef
  set s := (k + c * x) % 11 with hsdef
  have hx1 : 1 ≤ x := by rw [hxdef]; unfold clampScalar; omega
  have hx2 : x ≤ 10 := by rw [hxdef]; unfold clampScalar; omega
  set hv := msgFold msg % 10 + 1 with hhvdef
  have hH2 : H = scMul hv Gbase := by rw [hHdef]; rfl
  have hhv1 : 1 ≤ hv := by omega
  have hhv2 : hv ≤ 10 := by omega
  have hTH : scMul 11 H = 0 := by
    rw [hH2]; exact scMul_torsion_of hv Gbase Gbase_torsion
  have hTG : scMul 11 Gamma = 0 := by
    rw [hGdef]; exact scMul_torsion_of x H hTH
  have hY0 : Y ≠ 0 := by rw [hYdef]; exact scMul_Gbase_ne_zero x hx1 hx2
  have hG0 : Gamma ≠ 0 := by
    rw [hGdef, hH2, ← scMul_mul]
    refine scMul_Gbase_ne_zero_of_not_dvd (x * hv) ?_
    intro hdvd
    rcases ((by norm_num : Nat.Prime 11).dvd_mul.mp hdvd) with h11 | h11
    · exact absurd (Nat.le_of_dvd (by omega) h11) (by omega)
    · exact absurd (Nat.le_of_dvd (by omega) h11) (by omega)
  have hclt : c < 11 := by rw [hcdef]; unfold challengeHash; omega
  have hslt : s < 11 := by rw [hsdef]; omega
  set L := compressPoint Gamma ++ natToBytes 16 c ++ natToBytes 32 s with hLdef
  have htake : L.take 32 = compressPoint Gamma :=
    List.take_left' (compressPoint_length Gamma)
  have hdrop32 : L.drop 32 = natToBytes 16 c ++ natToBytes 32 s :=
    List.drop_left' (compressPoint_length Gamma)
  have hctake : (L.drop 32).take 16 = natToBytes 16 c := by
    rw [hdrop32]; exact List.take_left' (natToBytes_length 16 c)
  have hdrop48 : L.drop 48 = natToBytes 32 s := by
    have h4832 : L.drop 48 = (L.drop 32).drop 16 := by
      rw [List.drop_drop]
    rw [h4832, hdrop32]
    exact List.drop_left' (natToBytes_length 16 c)
  have hcval : bytesToNat (natToBytes 16 c) = c :=
    bytesToNat_natToBytes 16 c (lt_of_lt_of_le hclt (by norm_num))
  have hsval : bytesToNat (natToBytes 32 s) = s :=
    bytesToNat_natToBytes 32 s (lt_of_lt_of_le hslt (by norm_num))
  have hpkdec : decompressPoint (sk.drop 32) = some Y := by
    rw [hpk]; exact decompress_compress Y
  have hGdec : decompressPoint (L.take 32) = some Gamma := by
    rw [htake]; exact decompress_compress Gamma
  have hGtor : hasTorsion Gamma = false := by
    unfold hasTorsion
    simp [hTG]
  have hU : scMul (bytesToNat (L.drop 48)) Gbase
      - scMul (bytesToNat ((L.drop 32).take 16)) Y = scMul k Gbase := by
    rw [hdrop48, hsval, hctake, hcval, hYdef, hsdef]
    exact commitment_recompute x k c Gbase Gbase_torsion
  have hV : scMul (bytesToNat (L.drop 48)) H
      - scMul (bytesToNat ((L.drop 32).take 16)) Gamma = scMul k H := by
    rw [hdrop48, hsval, hctake, hcval, hGdef, hsdef]
    exact commitment_recompute x k c H hTH
  constructor
  · simp only [verifyBytesSpec, hpkdec, hGdec]
    rw [if_neg hY0, if_neg hG0, hGtor]
    simp only [Bool.false_eq_true, if_false]
    rw [hU, hV, hctake, ← hcdef]
    rw [if_pos rfl]
  · simp only [proofToHashSpec, hGdec, hGtor]
    simp

theorem keygen_take (seed : List Nat) (h : seed.length = 32) :
    (vrfKeygenFromSeedSpec seed).2.take 32 = seed := by
  simp only [vrfKeygenFromSeedSpec]
  exact List.take_left' h

theorem keygen_drop (seed : List Nat) (h : seed.length = 32) :
    (vrfKeygenFromSeedSpec seed).2.drop 32 = (vrfKeygenFromSeedSpec seed).1 := by
  simp only [vrfKeygenFromSeedSpec]
  exact List.drop_left' h

theorem proveBytesSpec_of_some (sk msg P : List Nat)
    (h : provePriv sk msg = some P) : proveBytesSpec sk msg = (P, true) := by
  unfold proveBytesSpec
  rw [h]

theorem provePriv_keygen (seed msg : List Nat) (h : seed.length = 32) :
    provePriv (vrfKeygenFromSeedSpec seed).2 msg ≠ none := by
  simp only [provePriv, vrfKeygenFromSeedSpec]
  rw [List.take_left' h, List.drop_left' h]
  rw [if_pos rfl]
  simp

theorem proveBytes_eq_spec (b : Bool) (sk msg : List Nat) :
    proveBytes cImpl goImpl b sk msg = proveBytesSpec sk msg := by
  cases b <;> rfl

theorem verifyBytes_eq_spec (b : Bool) (pk proof msg : List Nat) :
    verifyBytes cImpl goImpl b pk proof msg = verifyBytesSpec pk proof msg := by
  cases b <;> rfl

theorem Pubkey_eq_drop (b : Bool) (sk : List Nat) :
    Pubkey cImpl goImpl b sk = sk.drop 32 := by
  cases b <;> rfl

theorem VrfProofHash_eq_spec (b : Bool) (proof : List Nat) :
    VrfProofHash cImpl goImpl b proof = proofToHashSpec proof := rfl

theorem VrfKeygenFromSeed_eq_spec (b : Bool) (seed : List Nat) :
    VrfKeygenFromSeed cImpl goImpl b seed = vrfKeygenFromSeedSpec seed := by
  cases b <;> rfl

/-- C1: for every private key sk and message m (including the empty message)
for which proving succeeds with proof P — under any backend flag — verifying
P against Pubkey(sk) and m returns `(true, O)` and proof-to-hash returns
`(O, true)` for the same 64-byte output O. -/
theorem C1_prove_verify_hash_roundTrip
    (bProve bPub bVerify bHash : Bool) (sk msg P : List Nat)
    (h : proveBytes cImpl goImpl bProve sk msg = (P, true)) :
    ∃ O, verifyBytes cImpl goImpl bVerify (Pubkey cImpl goImpl bPub sk) P msg
          = (true, O)
      ∧ VrfProofHash cImpl goImpl bHash P = (O, true)
      ∧ O.length = 64 := by
  rw [proveBytes_eq_spec] at h
  have hs : provePriv sk msg = some P := by
    unfold proveBytesSpec at h
    cases hcase : provePriv sk msg with
    | none => rw [hcase] at h; simp [zeroProof] at h
    | some q =>
      rw [hcase] at h
      simp only [Prod.mk.injEq] at h
      rw [h.1]
  obtain ⟨hver, hhash⟩ := provePriv_roundTrip sk msg P hs
  refine ⟨outputHash (clearCofactor
      (scMul (clampScalar (sk.take 32)) (hashToCurve msg))), ?_, ?_, ?_⟩
  · rw [verifyBytes_eq_spec, Pubkey_eq_drop]
    exact hver
  · rw [VrfProofHash_eq_spec]
    exact hhash
  · unfold outputHash
    exact natToBytes_length 64 _

/-- Witness for C1 at the all-zero seed's key and the empty message. -/
theorem C1_witness :
    proveBytes cImpl goImpl false skW [] = (proofW, true) ∧
    ∃ O, verifyBytes cImpl goImpl false (Pubkey cImpl goImpl false skW) proofW []
          = (true, O)
      ∧ VrfProofHash cImpl goImpl false proofW = (O, true)
      ∧ O.length = 64 :=
  ⟨by decide,
   C1_prove_verify_hash_roundTrip false false false false skW [] proofW (by decide)⟩

/-- C2: keygen from a 32-byte seed is deterministic and flag-independent,
both backends derive byte-identical keypairs from the same seed, each
backend's proof for that keypair succeeds and verifies under the other
backend, and both backends compute the same output. -/
theorem C2_keygen_deterministic_cross_backend (seed msg : List Nat)
    (h : seed.length = 32) :
    (∀ b1 b2 : Bool, VrfKeygenFromSeed cImpl goImpl b1 seed
        = VrfKeygenFromSeed cImpl goImpl b2 seed)
    ∧ cImpl.keygenFromSeed seed = goImpl.keygenFromSeed seed
    ∧ (goImpl.proveBytes (cImpl.keygenFromSeed seed).2 msg).2 = true
    ∧ (cImpl.proveBytes (goImpl.keygenFromSeed seed).2 msg).2 = true
    ∧ cImpl.verifyBytes (cImpl.keygenFromSeed seed).1
        (goImpl.proveBytes (goImpl.keygenFromSeed seed).2 msg).1 msg
      = (true, outputHash (clearCofactor
          (scMul (clampScalar seed) (hashToCurve msg))))
    ∧ goImpl.verifyBytes (goImpl.keygenFromSeed seed).1
        (cImpl.proveBytes (cImpl.keygenFromSeed seed).2 msg).1 msg
      = (true, outputHash (clearCofactor
          (scMul (clampScalar seed) (hashToCurve msg)))) := by
  have hkC : cImpl.keygenFromSeed = vrfKeygenFromSeedSpec := rfl
  have hkG : goImpl.keygenFromSeed = vrfKeygenFromSeedSpec := rfl
  have hpC : cImpl.proveBytes = proveBytesSpec := rfl
  have hpG : goImpl.proveBytes = proveBytesSpec := rfl
  have hvC : cImpl.verifyBytes = verifyBytesSpec := rfl
  have hvG : goImpl.verifyBytes = verifyBytesSpec := rfl
  obtain ⟨P, hP⟩ :
      ∃ P, provePriv (vrfKeygenFromSeedSpec seed).2 msg = some P :=
    Option.ne_none_iff_exists'.mp (provePriv_keygen seed msg h)
  have hPB : proveBytesSpec (vrfKeygenFromSeedSpec seed).2 msg = (P, true) :=
    proveBytesSpec_of_some _ msg P hP
  obtain ⟨hver, _⟩ := provePriv_roundTrip (vrfKeygenFromSeedSpec seed).2 msg P hP
  rw [keygen_drop seed h, keygen_take seed h] at hver
  refine ⟨fun b1 b2 => by cases b1 <;> cases b2 <;> rfl, rfl, ?_, ?_, ?_, ?_⟩
  · rw [hpG, hkC, hPB]
  · rw [hpC, hkG, hPB]
  · rw [hvC, hkC, hkG, hpG, hPB]
    exact hver
  · rw [hvG, hkG, hkC, hpC, hPB]
    exact hver

/-- Witness for C2 at the all-zero 32-byte seed and message `[1]`. -/
theorem C2_witness :
    seedW.length = 32 ∧
    ((∀ b1 b2 : Bool, VrfKeygenFromSeed cImpl goImpl b1 seedW
        = VrfKeygenFromSeed cImpl goImpl b2 seedW)
    ∧ cImpl.keygenFromSeed seedW = goImpl.keygenFromSeed seedW
    ∧ (goImpl.proveBytes (cImpl.keygenFromSeed seedW).2 [1]).2 = true
    ∧ (cImpl.proveBytes (goImpl.keygenFromSeed seedW).2 [1]).2 = true
    ∧ cImpl.verifyBytes (cImpl.keygenFromSeed seedW).1
        (goImpl.proveBytes (goImpl.keygenFromSeed seedW).2 [1]).1 [1]
      = (true, outputHash (clearCofactor
          (scMul (clampScalar seedW) (hashToCurve [1]))))
    ∧ goImpl.verifyBytes (goImpl.keygenFromSeed seedW).1
        (cImpl.proveBytes (cImpl.keygenFromSeed seedW).2 [1]).1 [1]
      = (true, outputHash (clearCofactor
          (scMul (clampScalar seedW) (hashToCurve [1]))))) :=
  ⟨by decide, C2_keygen_deterministic_cross_backend seedW [1] (by decide)⟩

/-- C3 counterexample: with two backends that differ on proof-to-hash, after
`SetUseGoImplementation(true)` the `VrfProof.Hash` entry point still answers
with the C backend's result, not the Go backend's. -/
theorem C3_counterexample :
    VrfProofHash cEngineX gEngineX (SetUseGoImplementation false true) []
        = cEngineX.proofToHash []
    ∧ VrfProofHash cEngineX gEngineX (SetUseGoImplementation false true) []
        ≠ gEngineX.proofToHash [] := by
  constructor
  · rfl
  · decide

/-- C3 (amended): every Engine entry point except `VrfProof.Hash` is routed
by the Selector to the implementation named by the flag (with the Go branch
of `Pubkey` inlining the trailing-32-byte extraction), and the Selector
passes inputs and outputs through unchanged; `VrfProof.Hash` executes the C
backend regardless of the flag. -/
theorem C3_selector_routing (cE gE : VrfEngine) (flag : Bool)
    (seed entropy sk msg pk proof : List Nat) :
    (VrfKeygenFromSeed cE gE (SetUseGoImplementation flag true) seed
        = gE.keygenFromSeed seed
      ∧ VrfKeygenFromSeed cE gE (SetUseGoImplementation flag false) seed
        = cE.keygenFromSeed seed)
    ∧ (VrfKeygen cE gE true entropy = gE.keygenFromSeed entropy
      ∧ VrfKeygen cE gE false entropy = cE.keygen entropy)
    ∧ (Pubkey cE gE true sk = sk.drop 32
      ∧ Pubkey cE gE false sk = cE.skToPk sk)
    ∧ (proveBytes cE gE true sk msg = gE.proveBytes sk msg
      ∧ proveBytes cE gE false sk msg = cE.proveBytes sk msg)
    ∧ (verifyBytes cE gE true pk proof msg = gE.verifyBytes pk proof msg
      ∧ verifyBytes cE gE false pk proof msg = cE.verifyBytes pk proof msg)
    ∧ (∀ b : Bool, VrfProofHash cE gE b proof = cE.proofToHash proof) :=
  ⟨⟨rfl, rfl⟩, ⟨rfl, rfl⟩, ⟨rfl, rfl⟩, ⟨rfl, rfl⟩, ⟨rfl, rfl⟩, fun _ => rfl⟩

/-- C4: keygen returns `priv = seed ++ pub` — first 32 bytes the seed, last
32 bytes the returned public key — and `Pubkey` is pure extraction of the
trailing 32 bytes of any private key, under either backend flag. -/
theorem C4_keygen_shape_pubkey_extraction (b : Bool) (seed : List Nat)
    (h : seed.length = 32) :
    ((VrfKeygenFromSeed cImpl goImpl b seed).2
        = seed ++ (VrfKeygenFromSeed cImpl goImpl b seed).1
      ∧ (VrfKeygenFromSeed cImpl goImpl b seed).2.take 32 = seed
      ∧ (VrfKeygenFromSeed cImpl goImpl b seed).2.drop 32
        = (VrfKeygenFromSeed cImpl goImpl b seed).1)
    ∧ ∀ (b2 : Bool) (sk : List Nat), Pubkey cImpl goImpl b2 sk = sk.drop 32 := by
  rw [VrfKeygenFromSeed_eq_spec]
  exact ⟨⟨rfl, keygen_take seed h, keygen_drop seed h⟩,
    fun b2 sk => Pubkey_eq_drop b2 sk⟩

/-- Witness for C4 at the all-zero 32-byte seed. -/
theorem C4_witness :
    seedW.length = 32 ∧
    (((VrfKeygenFromSeed cImpl goImpl false seedW).2
        = seedW ++ (VrfKeygenFromSeed cImpl goImpl false seedW).1
      ∧ (VrfKeygenFromSeed cImpl goImpl false seedW).2.take 32 = seedW
      ∧ (VrfKeygenFromSeed cImpl goImpl false seedW).2.drop 32
        = (VrfKeygenFromSeed cImpl goImpl false seedW).1)
    ∧ ∀ (b2 : Bool) (sk : List Nat),
        Pubkey cImpl goImpl b2 sk = sk.drop 32) :=
  ⟨by decide, C4_keygen_shape_pubkey_extraction false seedW (by decide)⟩

/-- C5: whenever the public key or Gamma fails to decompress, either
decompressed point is the identity element, or Gamma carries disallowed
torsion, `verifyBytes` — under either backend flag and for every message
byte string — returns `ok = false` together with the all-zero output. -/
theorem C5_verify_rejects_malformed (b : Bool) (pk proof msg : List Nat)
    (h : rejectInput pk proof = true) :
    verifyBytes cImpl goImpl b pk proof msg = (false, zeros64) := by
  rw [verifyBytes_eq_spec]
  unfold rejectInput at h
  cases hpk : decompressPoint pk with
  | none => simp only [verifyBytesSpec, hpk]
  | some Y =>
    rw [hpk] at h
    cases hg : decompressPoint (proof.take 32) with
    | none =>
      simp only [verifyBytesSpec, hpk, hg]
      by_cases hY : Y = 0
      · rw [if_pos hY]
      · rw [if_neg hY]
    | some Gamma =>
      rw [hg] at h
      simp only [Bool.or_eq_true, decide_eq_true_eq] at h
      simp only [verifyBytesSpec, hpk, hg]
      by_cases hY : Y = 0
      · rw [if_pos hY]
      · rw [if_neg hY]
        rcases h with (h | h) | h
        · exact absurd h hY
        · rw [if_pos h]
        · by_cases hG : Gamma = 0
          · rw [if_pos hG]
          · rw [if_neg hG, h]
            rfl

/-- Witness for C5: a 32-byte public key of 0xFF bytes is a non-canonical
encoding, so verification rejects with the zero output. -/
theorem C5_witness :
    rejectInput (List.replicate 32 255) (List.replicate 80 0) = true ∧
    verifyBytes cImpl goImpl false (List.replicate 32 255)
        (List.replicate 80 0) [] = (false, zeros64) :=
  ⟨by decide,
   C5_verify_rejects_malformed false (List.replicate 32 255)
     (List.replicate 80 0) [] (by decide)⟩

/-- C7: the `(ok, Output)` pair returned by `Verify` is identical whether or
not a post-verify hook is registered; a registered hook only observes the
already-computed result. -/
theorem C7_hook_never_alters_result (cE gE : VrfEngine) (b : Bool)
    (hook : Option VerifyHookT) (pk p : List Nat) (message : HashableMsg) :
    (Verify cE gE b hook pk p message).1 = (Verify cE gE b none pk p message).1
    ∧ ∀ f : VerifyHookT,
        (Verify cE gE b (some f) pk p message).2
          = f pk p message (Verify cE gE b none pk p message).1.1
              (Verify cE gE b none pk p message).1.2 := by
  constructor
  · cases hook <;> rfl
  · intro f
    rfl

/-- C9 counterexample: two golden-generation runs with the same fixed PRNG
constant 42 but different CSPRNG entropy produce different fixture contents
— the keypairs are not derived from the seeded generator. -/
theorem C9_counterexample :
    generateGoldenVectors 42 entropyA 10 ≠ generateGoldenVectors 42 entropyB 10 := by
  decide

/-- C9 (amended): seeded with the fixed constant, the generator produces the
N messages deterministically — identically across regeneration runs, whatever
entropy the CSPRNG supplies — while the keypairs (and hence the key-derived
fixture fields) come from fresh system entropy and may differ between runs. -/
theorem C9_messages_deterministic (s n : Nat) (e1 e2 : List (List Nat)) :
    (generateGoldenVectors s e1 n).map GoldenVector.message
      = (generateGoldenVectors s e2 n).map GoldenVector.message := by
  unfold generateGoldenVectors
  simp [List.map_map, Function.comp]

/-- C10: when the update flag is set or no fixture exists, the golden-file
test generates and persists a fresh fixture with no replay checks; replay of
the stored vectors happens exactly when a fixture exists and regeneration
was not requested. -/
theorem C10_golden_control_flow (useGo : Bool) (s : Nat)
    (e : List (List Nat)) (vs : List GoldenVector) :
    (∀ u : Bool, runGoldenFileTest u none useGo s e
        = .generated (generateGoldenVectors s e 10))
    ∧ (∀ ex : Option (List GoldenVector), runGoldenFileTest true ex useGo s e
        = .generated (generateGoldenVectors s e 10))
    ∧ runGoldenFileTest false (some vs) useGo s e
        = .replayed (vs.map (replayVector useGo)) := by
  refine ⟨fun u => by cases u <;> rfl, fun ex => by cases ex <;> rfl, rfl⟩
